import Mathlib

/-!
Verification of the ranking step of the food-optimization repository.

The embedding below models src/sort_food_targets.py, the script that loads
the nutrition table, derives a calories_per_dollar value for every row with
a tiered fallback strategy, and emits the rows sorted descending by that
value. Numeric pandas cells are modelled as `Option ℚ` (with `none` for
NaN), text cells as `Option String`, Python float division by zero as an
`Except.error` (ZeroDivisionError), and the third-party unit pipeline
(quantulum3, unit_parse, pint) as an exact parser over strings of the shape
NUMBER UNIT with a small table of unit symbols and dimensions.
-/

namespace FoodOpt

/-- A cell of a numeric pandas column: `none` models NaN (a missing CSV
value or the result of NaN propagation); `some q` models an ordinary finite
float, represented exactly as a rational. -/
abbrev NumCell := Option ℚ

/-- A cell of a text pandas column: `none` models NaN (missing value). -/
abbrev StrCell := Option String

/-- One row of the kroger_all_nutrition.csv table, restricted to the columns
the ranking script reads. The `extra` field stands for all remaining columns
(product_id, brand, nutrients, ...), which the script never touches. -/
structure Row where
  description : String
  calories : NumCell
  price : NumCell
  servings_per_package : NumCell
  size : StrCell
  serving_size : StrCell
  extra : List (String × String)
  deriving DecidableEq, Repr

/-- Python float division as performed on lines 18, 21 and 37 of the script:
dividing by 0.0 raises ZeroDivisionError (modelled as `Except.error ()`)
whatever the numerator is, a NaN operand propagates, and finite values
divide exactly. -/
def pydiv (x y : NumCell) : Except Unit NumCell :=
  match y with
  | some b =>
    if b = 0 then .error () else
      match x with
      | some a => .ok (some (a / b))
      | none => .ok none
  | none => .ok none

/-- Python float multiplication: a NaN operand propagates. -/
def pymul (x y : NumCell) : NumCell :=
  match x, y with
  | some a, some b => some (a * b)
  | _, _ => none

/-- Numeric value of a list of decimal digits. -/
def digitsVal (l : List Char) : ℕ :=
  l.foldl (fun n c => 10 * n + (c.toNat - 48)) 0

/-- True when the character list is a nonempty run of decimal digits. -/
def isDigits (l : List Char) : Bool :=
  !l.isEmpty && l.all Char.isDigit

/-- Split a character list at every occurrence of the separator, keeping
empty fields, like the split used to take a text apart around blanks. -/
def splitChar (c : Char) : List Char → List (List Char)
  | [] => [[]]
  | x :: xs =>
    match splitChar c xs with
    | [] => if x = c then [[], []] else [[x]]
    | t :: ts => if x = c then [] :: t :: ts else (x :: t) :: ts

/-- Join tokens back with single blanks, the inverse of `splitChar` used to
rebuild a multi-word unit symbol. -/
def joinSpace : List (List Char) → List Char
  | [] => []
  | [t] => t
  | t :: ts => t ++ ' ' :: joinSpace ts

/-- Model of the numeric text understood by the quantulum3/unit_parse
pipeline for the simple strings produced by the data collector: a decimal
numeral, optionally with a fractional part. -/
def parseDecimal (l : List Char) : Option ℚ :=
  match splitChar '.' l with
  | [w] => if isDigits w then some (digitsVal w : ℚ) else none
  | [w, f] =>
    if isDigits w && isDigits f then
      some ((digitsVal w : ℚ) + (digitsVal f : ℚ) / (10 : ℚ) ^ f.length)
    else none
  | _ => none

/-- Measurement dimensions distinguished by the unit model. -/
inductive Dim where
  | mass
  | volume
  deriving DecidableEq, Repr

/-- A unit symbol resolved by the pipeline: its dimension and its conversion
factor to the base unit of that dimension (gram, litre). -/
structure UnitInfo where
  dim : Dim
  toBase : ℚ
  deriving DecidableEq, Repr

/-- Model of the unit symbols recognised by the quantulum3/unit_parse/pint
pipeline, restricted to the symbols the specification exercises. -/
def unitTable (sym : List Char) : Option UnitInfo :=
  if sym = "g".toList then some ⟨.mass, 1⟩
  else if sym = "kg".toList then some ⟨.mass, 1000⟩
  else if sym = "mg".toList then some ⟨.mass, 1 / 1000⟩
  else if sym = "oz".toList then some ⟨.mass, 28349523125 / 1000000000⟩
  else if sym = "lb".toList then some ⟨.mass, 45359237 / 100000⟩
  else if sym = "L".toList then some ⟨.volume, 1⟩
  else if sym = "l".toList then some ⟨.volume, 1⟩
  else if sym = "ml".toList then some ⟨.volume, 1 / 1000⟩
  else if sym = "mL".toList then some ⟨.volume, 1 / 1000⟩
  else if sym = "fl oz".toList then some ⟨.volume, 295735295625 / 10000000000⟩
  else none

/-- Model of parser.parse(s)[0] followed by the round trip through
unit_parse (lines 25-32 of the script): extract the leading decimal quantity
and the unit named by the remaining words. Yields `none` (an IndexError or
parse error in the source, caught by the try/except) when the text does not
have this shape or names an unknown unit. -/
def parseQuantity (s : String) : Option (ℚ × UnitInfo) :=
  match splitChar ' ' s.toList with
  | [] => none
  | numTok :: rest =>
    if rest.isEmpty then none
    else
      match parseDecimal numTok, unitTable (joinSpace rest) with
      | some v, some u => some (v, u)
      | _, _ => none

/-- Model of the pint conversion serving_size.to(size.units) on line 34:
converts across units of the same dimension and fails (DimensionalityError,
caught by the try/except) across dimensions. -/
def convertQ (v : ℚ) (u target : UnitInfo) : Option ℚ :=
  if u.dim = target.dim then some (v * u.toBase / target.toBase) else none

/-- Model of the body of the try block, lines 25-36: parse both size texts,
convert the serving quantity into the package unit and form the
dimensionless quotient size / serving_size. `none` models any exception
raised there and caught on line 40. -/
def unitTier (size serving : String) : Option ℚ :=
  match parseQuantity size, parseQuantity serving with
  | some sq, some vq =>
    match convertQ vq.1 vq.2 sq.2 with
    | some conv => if conv = 0 then none else some (sq.1 / conv)
    | none => none
  | _, _ => none

/-- Value left in the calories_per_dollar cell of one row by the loop body,
lines 17-41. The column is initialised to 0 on line 14. The baseline
calories / price of line 18 is computed into a local variable (and can raise
ZeroDivisionError, which no handler catches), but that local is never
written back to the table: only the servings_per_package tier (line 21) and
a successful unit conversion (line 39) overwrite the initial 0. Every
exception inside the try block of lines 23-41 is swallowed. -/
def rowValue (r : Row) : Except Unit NumCell :=
  match pydiv r.calories r.price with
  | .error e => .error e
  | .ok _baseline =>
    if r.servings_per_package.isSome then
      pydiv (pymul r.calories r.servings_per_package) r.price
    else
      match r.size with
      | some sz =>
        match r.serving_size with
        | some sv =>
          match unitTier sz sv with
          | some k =>
            match pydiv (pymul r.calories (some k)) r.price with
            | .ok v => .ok v
            | .error _ => .ok (some 0)
          | none => .ok (some 0)
        | none => .ok (some 0)
      | none => .ok (some 0)

/-- A row together with its final calories_per_dollar cell. -/
structure RankedRow where
  row : Row
  calories_per_dollar : NumCell
  deriving DecidableEq, Repr

/-- The loop body for a single row: compute the cell, keep every other field
of the row unchanged. -/
def annotateRow (r : Row) : Except Unit RankedRow :=
  match rowValue r with
  | .error e => .error e
  | .ok v => .ok ⟨r, v⟩

/-- The whole loop of lines 17-41: rows are processed first to last and the
first uncaught exception aborts the script. -/
def annotateRows : List Row → Except Unit (List RankedRow)
  | [] => .ok []
  | r :: rs =>
    match annotateRow r with
    | .error e => .error e
    | .ok a =>
      match annotateRows rs with
      | .error e => .error e
      | .ok l => .ok (a :: l)

/-- Line 16: drop_indexes is created empty and nothing is ever appended. -/
def drop_indexes : List ℕ := []

/-- Lines 43-44: drop the collected indexes (none, as the list stays
empty). -/
def applyDrops (l : List RankedRow) : List RankedRow :=
  drop_indexes.foldl (fun acc i => acc.eraseIdx i) l

/-- Comparison used by the descending sort on the calories_per_dollar
column: finite values in non-increasing order, NaN placed last (the pandas
default na_position). -/
def keyLe (x y : NumCell) : Bool :=
  match x, y with
  | none, none => true
  | none, some _ => false
  | some _, none => true
  | some a, some b => decide (b ≤ a)

/-- Row comparison induced by `keyLe` on the calories_per_dollar cells. -/
def rowLe (a b : RankedRow) : Bool :=
  keyLe a.calories_per_dollar b.calories_per_dollar

/-- Insert a row into a list sorted by `rowLe`, before the first element it
compares no worse than. -/
def insertRow (a : RankedRow) : List RankedRow → List RankedRow
  | [] => [a]
  | b :: bs => if rowLe a b then a :: b :: bs else b :: insertRow a bs

/-- Model of nutrition.sort_values(by=calories_per_dollar, ascending=False,
inplace=True) on line 46: a deterministic comparison sort, descending with
NaN last. The pandas default sort kind is quicksort, whose order among tied
keys is not documented; the theorems below use only the permutation and
sortedness of the result, never the tie order of this model. -/
def sortRanked : List RankedRow → List RankedRow
  | [] => []
  | a :: as => insertRow a (sortRanked as)

/-- The whole ranking step of src/sort_food_targets.py, lines 14-46:
annotate every row with its calories_per_dollar cell, apply the (empty) drop
list, sort descending. An `Except.error` models an uncaught Python
exception reaching the top level, which aborts the script before any output
is produced. -/
def rank (rows : List Row) : Except Unit (List RankedRow) :=
  match annotateRows rows with
  | .error e => .error e
  | .ok l => .ok (sortRanked (applyDrops l))

/-- A concrete row carrying only calories and price: every optional field is
NaN. -/
def c1row : Row :=
  ⟨"only calories and price", some 100, some 2, none, none, none, [("brand", "Acme")]⟩

/-- A concrete row whose size and serving_size carry dimensionally
incompatible units (volume against mass). -/
def c2row : Row :=
  ⟨"incompatible units", some 100, some 2, none, some "1 L", some "8 oz", []⟩

/-- A concrete row carrying servings_per_package together with parseable size
texts, to exhibit the tier override. -/
def c3row : Row :=
  ⟨"servings tier overrides", some 100, some 2, some 3, some "16 oz", some "4 oz", []⟩

/-- A concrete row with a zero price. -/
def c4zrow : Row :=
  ⟨"zero price", some 100, some 0, none, none, none, []⟩

/-- A concrete row with a missing price and a present servings_per_package. -/
def c4nanrow : Row :=
  ⟨"missing price", some 100, none, some 2, none, none, []⟩

/-- The concrete row of the 16 oz / 4 oz worked example of the spec. -/
def c6row : Row :=
  ⟨"sixteen oz package", some 100, some 2, none, some "16 oz", some "4 oz", []⟩

end FoodOpt

namespace FoodOpt

theorem applyDrops_eq (l : List RankedRow) : applyDrops l = l := rfl

theorem pydiv_zero_right (x : NumCell) : pydiv x (some 0) = .error () := by
  simp [pydiv]

theorem pydiv_some_some (a p : ℚ) (hp : p ≠ 0) :
    pydiv (some a) (some p) = .ok (some (a / p)) := by
  simp [pydiv, hp]

theorem pydiv_ok (x y : NumCell) (h : y ≠ some 0) : ∃ v, pydiv x y = .ok v := by
  cases y with
  | none => exact ⟨none, rfl⟩
  | some b =>
    have hb : ¬ b = 0 := fun hb0 => h (by rw [hb0])
    cases x with
    | none => exact ⟨none, by simp [pydiv, hb]⟩
    | some a => exact ⟨some (a / b), by simp [pydiv, hb]⟩

theorem pydiv_none_right (x : NumCell) : pydiv x none = .ok none := rfl

theorem rowValue_zero_price (r : Row) (h : r.price = some 0) :
    rowValue r = .error () := by
  unfold rowValue
  rw [h, pydiv_zero_right]

theorem rowValue_ok (r : Row) (h : r.price ≠ some 0) : ∃ v, rowValue r = .ok v := by
  obtain ⟨b, hb⟩ := pydiv_ok r.calories r.price h
  cases hsp : r.servings_per_package with
  | some s =>
    obtain ⟨v, hv⟩ := pydiv_ok (pymul r.calories (some s)) r.price h
    exact ⟨v, by simp [rowValue, hb, hsp, hv]⟩
  | none =>
    cases hsz : r.size with
    | none => exact ⟨some 0, by simp [rowValue, hb, hsp, hsz]⟩
    | some sz =>
      cases hsv : r.serving_size with
      | none => exact ⟨some 0, by simp [rowValue, hb, hsp, hsz, hsv]⟩
      | some sv =>
        cases ht : unitTier sz sv with
        | none => exact ⟨some 0, by simp [rowValue, hb, hsp, hsz, hsv, ht]⟩
        | some k =>
          obtain ⟨v, hv⟩ := pydiv_ok (pymul r.calories (some k)) r.price h
          exact ⟨v, by simp [rowValue, hb, hsp, hsz, hsv, ht, hv]⟩

theorem rowValue_spp (r : Row) (c s p : ℚ) (hc : r.calories = some c)
    (hs : r.servings_per_package = some s) (hp : r.price = some p) (hp0 : p ≠ 0) :
    rowValue r = .ok (some (c * s / p)) := by
  simp [rowValue, hc, hs, hp, pydiv, pymul, hp0]

theorem rowValue_fallthrough (r : Row) (hs : r.servings_per_package = none)
    (ht : r.size = none ∨ r.serving_size = none ∨
      ∀ sz sv, r.size = some sz → r.serving_size = some sv → unitTier sz sv = none)
    (v : NumCell) (hok : rowValue r = .ok v) : v = some 0 := by
  have hpne : r.price ≠ some 0 := by
    intro h0
    rw [rowValue_zero_price r h0] at hok
    cases hok
  obtain ⟨b, hb⟩ := pydiv_ok r.calories r.price hpne
  have hval : rowValue r = .ok (some 0) := by
    cases hsz : r.size with
    | none => simp [rowValue, hb, hs, hsz]
    | some sz =>
      cases hsv : r.serving_size with
      | none => simp [rowValue, hb, hs, hsz, hsv]
      | some sv =>
        have htz : unitTier sz sv = none := by
          rcases ht with h1 | h2 | h3
          · rw [hsz] at h1; cases h1
          · rw [hsv] at h2; cases h2
          · exact h3 sz sv hsz hsv
        simp [rowValue, hb, hs, hsz, hsv, htz]
  rw [hval] at hok
  injection hok with h2
  exact h2.symm

theorem rowValue_nan_price_spp (r : Row) (hp : r.price = none)
    (hs : r.servings_per_package.isSome = true) : rowValue r = .ok none := by
  simp [rowValue, hp, hs, pydiv]

theorem annotateRow_ok_elim (r : Row) (a : RankedRow) (h : annotateRow r = .ok a) :
    a.row = r ∧ rowValue r = .ok a.calories_per_dollar := by
  cases hv : rowValue r with
  | error e => simp [annotateRow, hv] at h
  | ok v =>
    simp [annotateRow, hv] at h
    subst h
    exact ⟨rfl, rfl⟩

theorem annotateRows_ok (rows : List Row) (l : List RankedRow)
    (h : annotateRows rows = .ok l) :
    l.map RankedRow.row = rows ∧
      ∀ rr ∈ l, rowValue rr.row = .ok rr.calories_per_dollar := by
  induction rows generalizing l with
  | nil =>
    simp [annotateRows] at h
    subst h
    simp
  | cons r rs ih =>
    cases ha : annotateRow r with
    | error e => simp [annotateRows, ha] at h
    | ok a =>
      cases hrs : annotateRows rs with
      | error e => simp [annotateRows, ha, hrs] at h
      | ok l2 =>
        simp [annotateRows, ha, hrs] at h
        subst h
        obtain ⟨har, hav⟩ := annotateRow_ok_elim r a ha
        obtain ⟨hmap, hall⟩ := ih l2 hrs
        refine ⟨by simp [har, hmap], ?_⟩
        intro rr hrr
        rcases List.mem_cons.mp hrr with h4 | h4
        · subst h4
          rw [har]
          exact hav
        · exact hall rr h4

theorem annotateRows_exists (rows : List Row)
    (h : ∀ r ∈ rows, r.price ≠ some 0) : ∃ l, annotateRows rows = .ok l := by
  induction rows with
  | nil => exact ⟨[], rfl⟩
  | cons r rs ih =>
    obtain ⟨v, hv⟩ := rowValue_ok r (h r (List.mem_cons_self r rs))
    obtain ⟨l2, hl2⟩ := ih (fun x hx => h x (List.mem_cons_of_mem r hx))
    exact ⟨⟨r, v⟩ :: l2, by simp [annotateRows, annotateRow, hv, hl2]⟩

theorem annotateRows_err (rows : List Row) (r : Row) (hr : r ∈ rows)
    (h : rowValue r = .error ()) : annotateRows rows = .error () := by
  induction rows with
  | nil => cases hr
  | cons x xs ih =>
    rcases List.mem_cons.mp hr with h1 | h1
    · subst h1
      simp [annotateRows, annotateRow, h]
    · cases ha : annotateRow x with
      | error e => cases e; simp [annotateRows, ha]
      | ok a => simp [annotateRows, ha, ih h1]

theorem insertRow_perm (a : RankedRow) (l : List RankedRow) :
    (insertRow a l).Perm (a :: l) := by
  induction l with
  | nil => exact List.Perm.refl _
  | cons b bs ih =>
    rw [insertRow]
    by_cases h : rowLe a b = true
    · rw [if_pos h]
    · rw [if_neg h]
      exact (ih.cons b).trans (List.Perm.swap a b bs)

theorem sortRanked_perm (l : List RankedRow) : (sortRanked l).Perm l := by
  induction l with
  | nil => exact List.Perm.refl _
  | cons a as ih => exact (insertRow_perm a (sortRanked as)).trans (ih.cons a)

theorem keyLe_total (x y : NumCell) : keyLe x y = true ∨ keyLe y x = true := by
  cases x with
  | none => cases y <;> simp [keyLe]
  | some a =>
    cases y with
    | none => simp [keyLe]
    | some b => simpa [keyLe] using le_total b a

theorem keyLe_trans (x y z : NumCell) (h1 : keyLe x y = true) (h2 : keyLe y z = true) :
    keyLe x z = true := by
  cases x with
  | some a =>
    cases z with
    | none => rfl
    | some c =>
      cases y with
      | none => simp [keyLe] at h2
      | some b =>
        simp only [keyLe, decide_eq_true_eq] at h1 h2 ⊢
        exact le_trans h2 h1
  | none =>
    cases y with
    | some b => simp [keyLe] at h1
    | none =>
      cases z with
      | some c => simp [keyLe] at h2
      | none => rfl

theorem rowLe_total (a b : RankedRow) : rowLe a b = true ∨ rowLe b a = true :=
  keyLe_total _ _

theorem rowLe_trans (a b c : RankedRow) (h1 : rowLe a b = true) (h2 : rowLe b c = true) :
    rowLe a c = true :=
  keyLe_trans _ _ _ h1 h2

theorem mem_insertRow (x a : RankedRow) (l : List RankedRow) :
    x ∈ insertRow a l ↔ x = a ∨ x ∈ l :=
  ((insertRow_perm a l).mem_iff).trans List.mem_cons

theorem pairwise_insertRow (a : RankedRow) (l : List RankedRow)
    (h : l.Pairwise (fun u v => rowLe u v = true)) :
    (insertRow a l).Pairwise (fun u v => rowLe u v = true) := by
  induction l with
  | nil => simp [insertRow]
  | cons b bs ih =>
    rw [insertRow]
    rcases List.pairwise_cons.mp h with ⟨hb, hbs⟩
    by_cases hab : rowLe a b = true
    · rw [if_pos hab]
      refine List.pairwise_cons.mpr ⟨?_, h⟩
      intro x hx
      rcases List.mem_cons.mp hx with h1 | h1
      · subst h1; exact hab
      · exact rowLe_trans a b x hab (hb x h1)
    · rw [if_neg hab]
      refine List.pairwise_cons.mpr ⟨?_, ih hbs⟩
      intro x hx
      rcases (mem_insertRow x a bs).mp hx with h1 | h1
      · rw [h1]
        rcases rowLe_total a b with h2 | h2
        · exact absurd h2 hab
        · exact h2
      · exact hb x h1

theorem sortRanked_pairwise (l : List RankedRow) :
    (sortRanked l).Pairwise (fun u v => rowLe u v = true) := by
  induction l with
  | nil => simp [sortRanked]
  | cons a as ih => exact pairwise_insertRow a (sortRanked as) ih

theorem rank_ok_elim (rows : List Row) (out : List RankedRow)
    (h : rank rows = .ok out) :
    ∃ l, annotateRows rows = .ok l ∧ out = sortRanked l := by
  cases hl : annotateRows rows with
  | error e => simp [rank, hl] at h
  | ok l =>
    refine ⟨l, rfl, ?_⟩
    simp [rank, hl, applyDrops_eq] at h
    exact h.symm

theorem rank_err (rows : List Row) (h : annotateRows rows = .error ()) :
    rank rows = .error () := by
  simp [rank, h]

theorem rank_ok_intro (rows : List Row) (l : List RankedRow)
    (h : annotateRows rows = .ok l) : rank rows = .ok (sortRanked l) := by
  simp [rank, h, applyDrops_eq]

theorem rank_mem_value (rows : List Row) (out : List RankedRow)
    (h : rank rows = .ok out) (rr : RankedRow) (hmem : rr ∈ out) :
    rowValue rr.row = .ok rr.calories_per_dollar := by
  obtain ⟨l, hl, hout⟩ := rank_ok_elim rows out h
  have hmem2 : rr ∈ l := (sortRanked_perm l).mem_iff.mp (hout ▸ hmem)
  exact (annotateRows_ok rows l hl).2 rr hmem2

/-- C1: the claim that a row with only calories and price set gets
calories_per_dollar = calories / price fails on the code: for calories = 100
and price = 2 the ranking outputs calories_per_dollar = 0, the initialised
column value, not 100 / 2 = 50; the tier-1 baseline of line 18 is computed
into a local variable that is never written back to the table. -/
theorem C1_baseline_never_written :
    rank [c1row] = .ok [⟨c1row, some 0⟩] ∧ (100 : ℚ) / 2 ≠ 0 :=
  ⟨by with_unfolding_all rfl, by norm_num⟩

/-- C2: on a unit-tier failure (here dimensionally incompatible units, 1 L
against 8 oz) no exception escapes and the row is kept, but the output cell
is the initialised 0, not the tier-1 baseline 100 / 2 = 50 that the claim
promises as the fallback. -/
theorem C2_unit_failure_keeps_zero :
    rank [c2row] = .ok [⟨c2row, some 0⟩] ∧ unitTier "1 L" "8 oz" = none ∧
      (100 : ℚ) / 2 ≠ 0 :=
  ⟨by with_unfolding_all rfl, by with_unfolding_all rfl, by norm_num⟩

/-- C3: every output row whose source row carries a present
servings_per_package = s with calories = c and price = p has
calories_per_dollar = c * s / p, even when size and serving_size are also
present: the servings tier is tested first and shadows the unit tier. -/
theorem C3_servings_tier_overrides (rows : List Row) (out : List RankedRow)
    (hok : rank rows = .ok out) (rr : RankedRow) (hmem : rr ∈ out)
    (c s p : ℚ) (hc : rr.row.calories = some c)
    (hs : rr.row.servings_per_package = some s) (hp : rr.row.price = some p) :
    rr.calories_per_dollar = some (c * s / p) := by
  have hval := rank_mem_value rows out hok rr hmem
  have hp0 : p ≠ 0 := by
    intro h0
    subst h0
    rw [rowValue_zero_price rr.row hp] at hval
    cases hval
  rw [rowValue_spp rr.row c s p hc hs hp hp0] at hval
  injection hval with h2
  exact h2.symm

/-- C3 witness: the concrete row with servings_per_package = 3, calories =
100, price = 2, and also size = 16 oz, serving_size = 4 oz present, ranks to
100 * 3 / 2 = 150, not to the unit-tier value. -/
theorem C3_witness :
    rank [c3row] = .ok [⟨c3row, some 150⟩] ∧
      (RankedRow.mk c3row (some 150)).calories_per_dollar = some ((100 : ℚ) * 3 / 2) :=
  ⟨by with_unfolding_all rfl,
    C3_servings_tier_overrides [c3row] [⟨c3row, some 150⟩] (by with_unfolding_all rfl)
      ⟨c3row, some 150⟩ (List.mem_singleton.mpr rfl) 100 3 2 rfl rfl rfl⟩

/-- C4 counterexample: for a row with price = 0 the baseline division of
line 18 raises ZeroDivisionError outside every try/except, so the ranking
step propagates a numeric error and produces no sorted output at all,
contrary to the claim that the row would get a non-finite ratio and be
sorted to the bottom. -/
theorem C4_zero_price_counterexample : rank [c4zrow] = .error () := by
  with_unfolding_all rfl

/-- C4 (amended): a zero price anywhere in the table makes the ranking step
propagate ZeroDivisionError and produce no output; a missing (NaN) price row
whose cell is written by the servings tier gets a NaN ratio; and in any
successful output the NaN cells are sorted to the bottom deterministically:
every cell from a NaN cell onwards is NaN. -/
theorem C4_amended_zero_raises_nan_sorts_last (rows : List Row) :
    (∀ r ∈ rows, r.price = some 0 → rank rows = .error ()) ∧
    (∀ r ∈ rows, r.price = none → r.servings_per_package.isSome = true →
      annotateRow r = .ok ⟨r, none⟩) ∧
    (∀ out, rank rows = .ok out → ∀ i j : Fin out.length, i ≤ j →
      (out.get i).calories_per_dollar = none →
      (out.get j).calories_per_dollar = none) := by
  refine ⟨?_, ?_, ?_⟩
  · intro r hr h0
    exact rank_err rows (annotateRows_err rows r hr (rowValue_zero_price r h0))
  · intro r _ hp hs
    have hv := rowValue_nan_price_spp r hp hs
    simp [annotateRow, hv]
  · intro out hok i j hij hi
    obtain ⟨l, hl, hout⟩ := rank_ok_elim rows out hok
    have hpw : out.Pairwise (fun u v => rowLe u v = true) := by
      rw [hout]
      exact sortRanked_pairwise l
    rcases lt_or_eq_of_le hij with hlt | heq
    · have hle := List.pairwise_iff_get.mp hpw i j hlt
      simp only [rowLe] at hle
      rw [hi] at hle
      cases hj : (out.get j).calories_per_dollar with
      | none => rfl
      | some q => rw [hj] at hle; simp [keyLe] at hle
    · rw [← heq]
      exact hi

/-- C4 witness: concrete instances of the three amended facts: the zero
price row raises, the missing-price row with servings_per_package present
gets NaN, and in the two-row output with cells 150 and NaN the NaN cell
satisfies the bottom property. -/
theorem C4_amended_witness :
    rank [c4zrow] = .error () ∧
      annotateRow c4nanrow = .ok ⟨c4nanrow, none⟩ ∧
      (RankedRow.mk c4nanrow none).calories_per_dollar = none :=
  ⟨(C4_amended_zero_raises_nan_sorts_last [c4zrow]).1 c4zrow
      (List.mem_singleton.mpr rfl) rfl,
    (C4_amended_zero_raises_nan_sorts_last [c4nanrow]).2.1 c4nanrow
      (List.mem_singleton.mpr rfl) rfl rfl,
    (C4_amended_zero_raises_nan_sorts_last [c4nanrow, c3row]).2.2
      [⟨c3row, some 150⟩, ⟨c4nanrow, none⟩] (by with_unfolding_all rfl)
      ⟨1, by decide⟩ ⟨1, by decide⟩ (le_refl _) rfl⟩

/-- C6: the worked example of the spec: size 16 oz, serving_size 4 oz, no
servings_per_package, calories 100, price 2 gives package/serving ratio
16 / 4 = 4 and output calories_per_dollar = 100 * 4 / 2 = 200. -/
theorem C6_sixteen_oz_example :
    rank [c6row] = .ok [⟨c6row, some 200⟩] ∧ unitTier "16 oz" "4 oz" = some 4 :=
  ⟨by with_unfolding_all rfl, by with_unfolding_all rfl⟩

/-- C7: for an input free of missing required fields (calories present,
price present and nonzero) the ranking succeeds and the output has exactly
as many rows as the input: no row is ever dropped. -/
theorem C7_row_count_preserved (rows : List Row)
    (h : ∀ r ∈ rows, (∃ c, r.calories = some c) ∧ ∃ p, r.price = some p ∧ p ≠ 0) :
    Except.map List.length (rank rows) = .ok rows.length := by
  have hne : ∀ r ∈ rows, r.price ≠ some 0 := by
    intro r hr h0
    obtain ⟨_, p, hp, hp0⟩ := h r hr
    rw [hp] at h0
    injection h0 with h2
    exact hp0 h2
  obtain ⟨l, hl⟩ := annotateRows_exists rows hne
  rw [rank_ok_intro rows l hl]
  have hlen : (sortRanked l).length = rows.length := by
    rw [(sortRanked_perm l).length_eq]
    have hmap := congrArg List.length (annotateRows_ok rows l hl).1
    simpa using hmap
  simp [Except.map, hlen]

/-- C7 witness: a one-row table with calories and a nonzero price present is
ranked to a one-row output. -/
theorem C7_witness : Except.map List.length (rank [c1row]) = .ok 1 :=
  C7_row_count_preserved [c1row] (by
    intro r hr
    rw [List.mem_singleton] at hr
    subst hr
    exact ⟨⟨100, rfl⟩, 2, rfl, by norm_num⟩)

/-- C8: ranking is a pure reordering plus one derived column: the bases of
the output rows are a permutation of the input rows with every original
field intact, and each output cell is exactly the loop value computed from
the fields of its own row. -/
theorem C8_pure_reordering (rows : List Row) (out : List RankedRow)
    (hok : rank rows = .ok out) :
    (out.map RankedRow.row).Perm rows ∧
      ∀ rr ∈ out, rowValue rr.row = .ok rr.calories_per_dollar := by
  obtain ⟨l, hl, hout⟩ := rank_ok_elim rows out hok
  obtain ⟨hmap, hall⟩ := annotateRows_ok rows l hl
  constructor
  · rw [hout, ← hmap]
    exact (sortRanked_perm l).map RankedRow.row
  · intro rr hmem
    exact rank_mem_value rows out hok rr hmem

/-- C8 witness: concrete instance at the 16 oz example row. -/
theorem C8_witness :
    (([⟨c6row, some 200⟩] : List RankedRow).map RankedRow.row).Perm [c6row] :=
  (C8_pure_reordering [c6row] [⟨c6row, some 200⟩] (by with_unfolding_all rfl)).1

/-- C10: every output row whose source row has servings_per_package NaN and
whose unit-conversion tier is inapplicable (size or serving_size missing) or
fails keeps calories_per_dollar exactly 0, the value the column was
initialised to: the tier-1 baseline lives only in a local variable and no
code path writes it to the table. -/
theorem C10_fallthrough_is_initial_zero (rows : List Row) (out : List RankedRow)
    (hok : rank rows = .ok out) (rr : RankedRow) (hmem : rr ∈ out)
    (hspp : rr.row.servings_per_package = none)
    (htier : rr.row.size = none ∨ rr.row.serving_size = none ∨
      ∀ sz sv, rr.row.size = some sz → rr.row.serving_size = some sv →
        unitTier sz sv = none) :
    rr.calories_per_dollar = some 0 := by
  have hval := rank_mem_value rows out hok rr hmem
  exact rowValue_fallthrough rr.row hspp htier rr.calories_per_dollar hval

/-- C10 witness: the row with only calories = 100 and price = 2 comes out of
the ranking with the initialised cell value 0. -/
theorem C10_witness :
    rank [c1row] = .ok [⟨c1row, some 0⟩] ∧
      (RankedRow.mk c1row (some 0)).calories_per_dollar = some 0 :=
  ⟨by with_unfolding_all rfl,
    C10_fallthrough_is_initial_zero [c1row] [⟨c1row, some 0⟩]
      (by with_unfolding_all rfl) ⟨c1row, some 0⟩ (List.mem_singleton.mpr rfl)
      rfl (Or.inl rfl)⟩

end FoodOpt
